import Mathlib

/-!
Shallow embedding of the route-planning core of `src/app.py`
(geocoding adapter, distance-matrix builder, nearest-neighbor tour
constructor, cost aggregator, and the submit pipeline of lines 93-135).

Python floats are modelled as rationals; the external geocoding provider
and the `geodesic` distance function of geopy are parameters (they are
external collaborators, not code of this repository); the per-edge
`random.uniform(0, traffic)` draws are a parameter `u : Nat → Nat → ℚ`
constrained to `[0, traffic]` where a claim needs it.
-/

namespace RouteApp

/-- A latitude/longitude pair, as the Python tuples `(lat, lon)`. -/
abbrev Coord := ℚ × ℚ

/-- Read entry `dist[i][j]` of a matrix represented as a list of rows,
with `0` out of range (the Python code only indexes in range). -/
def entry (dist : List (List ℚ)) (i j : Nat) : ℚ :=
  (dist.getD i []).getD j 0

/-- Outcome of one `client.pelias_search` call for one name, as the three
branches of `geocode_locations` distinguish them: a first feature with raw
geometry coordinates `[lon, lat]`, a response with no features, or a raised
exception. -/
inductive GeoResult
  | found (lon lat : ℚ)
  | notFound
  | failed
deriving DecidableEq

/-- Function `geocode_locations(names, ors_key)` (src/app.py lines 31-48): one
coordinate per name, in order; a found feature contributes `(lat, lon)`
(note the swap from raw `[lon, lat]`), the other two branches contribute
the sentinel `(0, 0)`.  The provider is the oracle `geo`. -/
def geocode_locations (geo : String → GeoResult) (names : List String) :
    List Coord :=
  names.map fun name =>
    match geo name with
    | .found lon lat => (lat, lon)
    | .notFound => ((0 : ℚ), (0 : ℚ))
    | .failed => ((0 : ℚ), (0 : ℚ))

/-- Function `fallback_matrix(coords)` (src/app.py lines 50-57): the `n × n` matrix
with zero diagonal and `d coords[i] coords[j]` off the diagonal, where `d`
stands for geopy's `geodesic(·,·).km`. -/
def fallback_matrix (d : Coord → Coord → ℚ) (coords : List Coord) :
    List (List ℚ) :=
  (List.range coords.length).map fun i =>
    (List.range coords.length).map fun j =>
      if i = j then 0 else d (coords.getD i (0, 0)) (coords.getD j (0, 0))

/-- The traffic-inflation loop (src/app.py lines 114-116):
`dist[i][j] *= (1 + random.uniform(0, traffic))` for every `i, j`, the draw
for edge `(i, j)` being `u i j`. -/
def inflate (u : Nat → Nat → ℚ) (dist : List (List ℚ)) : List (List ℚ) :=
  dist.mapIdx fun i row => row.mapIdx fun j x => x * (1 + u i j)

/-- The distance matrix the pipeline hands to the tour constructor
(src/app.py lines 111-116): geodesic matrix, then traffic inflation. -/
def build_dist (d : Coord → Coord → ℚ) (u : Nat → Nat → ℚ)
    (points : List Coord) : List (List ℚ) :=
  inflate u (fallback_matrix d points)

/-- Python's `min(iterable, key=key)`: scan left to right, keep the current
best, replace it only on a strictly smaller key — so the first element
attaining the minimal key is returned.  `none` on an empty iterable (where
Python raises `ValueError`; the route loop never reaches that case). -/
def pyMin (key : Nat → ℚ) : List Nat → Option Nat
  | [] => none
  | j :: js => some (js.foldl (fun b x => if key x < key b then x else b) j)

/-- One selection step of the nearest-neighbor loop (src/app.py lines
123-124): `min((j for j in range(n) if j not in visited), key=lambda j:
dist[last][j])` with `last` the last element of the route so far.  The
`visited` set always equals the set of route elements. -/
def next_city (dist : List (List ℚ)) (n : Nat) (r : List Nat) : Option Nat :=
  pyMin (fun j => entry dist (r.getLastD 0) j)
    ((List.range n).filter fun j => decide (j ∉ r))

/-- The `while len(route) < n` loop (src/app.py lines 121-126), with fuel:
each iteration appends the chosen city.  Fuel `n` is enough since the
route grows by one per iteration. -/
def nnLoop (dist : List (List ℚ)) (n : Nat) : Nat → List Nat → List Nat
  | 0, r => r
  | fuel + 1, r =>
    if r.length < n then
      match next_city dist n r with
      | some c => nnLoop dist n fuel (r ++ [c])
      | none => r
    else r

/-- Value `route` (src/app.py lines 118-127): start at `[0]`, greedily append
nearest unvisited cities until the route has `n = len(dist)` elements,
then append `0` to close the tour. -/
def route (dist : List (List ℚ)) : List Nat :=
  nnLoop dist dist.length dist.length [0] ++ [0]

/-- Value `total_km` (src/app.py line 129): sum of `dist[a][b]` over consecutive
route pairs `zip(route[:-1], route[1:])`. -/
def total_km (dist : List (List ℚ)) (r : List Nat) : ℚ :=
  ((r.dropLast.zip r.tail).map fun ab => entry dist ab.1 ab.2).sum

/-- Errors of the fallible parts of the pipeline. -/
inductive AggErr
  | divisionInvalid
deriving DecidableEq

/-- One term `(dist[a][b] / fuel_eff) * fuel_price`, fallible as the
Python float division is: `x / 0` raises `ZeroDivisionError`. -/
def costTerm (dist : List (List ℚ)) (fuel_eff fuel_price : ℚ)
    (ab : Nat × Nat) : Except AggErr ℚ :=
  if fuel_eff = 0 then .error .divisionInvalid
  else .ok (entry dist ab.1 ab.2 / fuel_eff * fuel_price)

/-- Accumulation step of the cost sum: an already-raised error propagates,
otherwise the next fallible term is added. -/
def costStep (dist : List (List ℚ)) (fuel_eff fuel_price : ℚ)
    (acc : Except AggErr ℚ) (ab : Nat × Nat) : Except AggErr ℚ := do
  let s ← acc
  let t ← costTerm dist fuel_eff fuel_price ab
  pure (s + t)

/-- Value `total_cost_val` (src/app.py line 130): the sum of the fallible cost
terms over consecutive route pairs; the first division by zero aborts the
sum, as the raised `ZeroDivisionError` does. -/
def total_cost_exc (dist : List (List ℚ)) (r : List Nat)
    (fuel_eff fuel_price : ℚ) : Except AggErr ℚ :=
  (r.dropLast.zip r.tail).foldl (costStep dist fuel_eff fuel_price) (.ok 0)

/-- The `{totalDistanceKm, totalCost}` aggregate of the spec's data
model. -/
structure RouteSummary where
  totalDistanceKm : ℚ
  totalCost : ℚ
deriving DecidableEq

/-- The cost-aggregation stage (src/app.py lines 129-130) as one function:
distance sum and fallible cost sum; a division error yields no summary. -/
def aggregate (dist : List (List ℚ)) (r : List Nat)
    (fuel_price fuel_eff : ℚ) : Except AggErr RouteSummary :=
  match total_cost_exc dist r fuel_eff fuel_price with
  | .error e => .error e
  | .ok c => .ok ⟨total_km dist r, c⟩

/-- Errors the submit pipeline can surface. -/
inductive PipeErr
  | emptyKey
  | tooFewLocations
  | divisionInvalid
deriving DecidableEq

/-- Everything the successful pipeline exposes (lines 132-138): the
cleaned names, the point list, the inflated matrix, the tour, and the two
metrics. -/
structure Output where
  loc_names : List String
  points : List Coord
  dist : List (List ℚ)
  tour : List Nat
  km : ℚ
  cost : ℚ

/-- Python's `str.strip()`: drop leading and trailing whitespace. -/
def pyStrip (s : String) : String :=
  ⟨((s.data.dropWhile Char.isWhitespace).reverse.dropWhile
      Char.isWhitespace).reverse⟩

/-- Value `loc_names` (src/app.py line 98): strip each line, keep the non-empty
ones. -/
def clean_names (loc_input : List String) : List String :=
  (loc_input.map pyStrip).filter fun l => decide (l ≠ "")

/-- The fixed fallback pair of line 109 (Katraj, Hadapsar). -/
def fallbackPair : List Coord :=
  [((18.4575 : ℚ), (73.8580 : ℚ)), ((18.5000 : ℚ), (73.9300 : ℚ))]

/-- The test of line 107: `all(p == (0, 0) for p in points)`. -/
def allSentinel (points : List Coord) : Bool :=
  points.all fun p => decide (p = ((0 : ℚ), (0 : ℚ)))

/-- Lines 104-109: geocode all names, then replace the whole point set by
the fallback pair when it is empty or every point is the sentinel. -/
def resolve_points (geo : String → GeoResult) (names : List String) :
    List Coord :=
  let points := geocode_locations geo names
  if points = [] ∨ allSentinel points then fallbackPair
  else points

/-- The `if submitted:` pipeline (src/app.py lines 93-135): credential
check, location-count check, geocoding, fallback substitution, matrix,
inflation, nearest-neighbor route, distance and cost sums.  `geo` is the
external geocoder, `d` geopy's geodesic, `u` the per-edge uniform draws;
`traffic` only reaches the computation through `u`. -/
def runPipeline (geo : String → GeoResult) (d : Coord → Coord → ℚ)
    (u : Nat → Nat → ℚ) (ors_key : String) (loc_input : List String)
    (fuel_price fuel_eff traffic : ℚ) : Except PipeErr Output :=
  if pyStrip ors_key = "" then .error .emptyKey
  else
    let names := clean_names loc_input
    if names.length < 2 then .error .tooFewLocations
    else
      let points := resolve_points geo names
      let dist := build_dist d u points
      let r := route dist
      match total_cost_exc dist r fuel_eff fuel_price with
      | .error _ => .error .divisionInvalid
      | .ok c => .ok ⟨names, points, dist, r, total_km dist r, c⟩

/-! Matrix entry lemmas -/

lemma length_fallback_matrix (d : Coord → Coord → ℚ) (coords : List Coord) :
    (fallback_matrix d coords).length = coords.length := by
  simp [fallback_matrix]

lemma row_fallback_matrix (d : Coord → Coord → ℚ) (coords : List Coord)
    (i : Nat) (hi : i < coords.length) :
    (fallback_matrix d coords).getD i [] =
      (List.range coords.length).map fun j =>
        if i = j then 0 else d (coords.getD i (0, 0)) (coords.getD j (0, 0)) := by
  rw [fallback_matrix, List.getD_eq_getElem _ _ (by simpa using hi)]
  simp

lemma entry_fallback_matrix (d : Coord → Coord → ℚ) (coords : List Coord)
    (i j : Nat) (hi : i < coords.length) (hj : j < coords.length) :
    entry (fallback_matrix d coords) i j =
      if i = j then 0 else d (coords.getD i (0, 0)) (coords.getD j (0, 0)) := by
  rw [entry, row_fallback_matrix d coords i hi,
    List.getD_eq_getElem _ _ (by simpa using hj)]
  simp

lemma entry_out_of_range (M : List (List ℚ)) (i j : Nat)
    (h : M.length ≤ i ∨ (M.getD i []).length ≤ j) : entry M i j = 0 := by
  rcases h with h | h
  · rw [entry, List.getD_eq_default _ _ h]
    simp
  · rw [entry, List.getD_eq_default _ _ h]

lemma entry_inflate (u : Nat → Nat → ℚ) (M : List (List ℚ)) (i j : Nat) :
    entry (inflate u M) i j = entry M i j * (1 + u i j) := by
  by_cases hi : i < M.length
  · have hlen : i < (inflate u M).length := by simpa [inflate] using hi
    have hrow : (inflate u M).getD i [] = (M.getD i []).mapIdx fun j x => x * (1 + u i j) := by
      rw [List.getD_eq_getElem _ _ hlen, List.getD_eq_getElem _ _ hi]
      simp only [inflate]
      rw [List.getElem_mapIdx]
    by_cases hj : j < (M.getD i []).length
    · rw [entry, hrow, List.getD_eq_getElem _ _ (by simpa using hj), entry,
        List.getD_eq_getElem _ _ hj, List.getElem_mapIdx]
    · rw [entry, hrow, List.getD_eq_default _ _ (by simpa using Nat.le_of_not_lt hj),
        entry_out_of_range M i j (Or.inr (Nat.le_of_not_lt hj)), zero_mul]
  · rw [entry_out_of_range M i j (Or.inl (Nat.le_of_not_lt hi)),
      entry_out_of_range (inflate u M) i j
        (Or.inl (by simpa [inflate] using Nat.le_of_not_lt hi)), zero_mul]

lemma inflate_zero (u : Nat → Nat → ℚ) (M : List (List ℚ))
    (hu : ∀ i j, u i j = 0) : inflate u M = M := by
  apply List.ext_getElem (by simp [inflate])
  intro i h1 h2
  simp only [inflate]
  rw [List.getElem_mapIdx]
  apply List.ext_getElem (by simp)
  intro j h3 h4
  rw [List.getElem_mapIdx, hu i j]
  ring

lemma entry_fallback_symm (d : Coord → Coord → ℚ) (coords : List Coord)
    (hd : ∀ a b, d a b = d b a) (i j : Nat) :
    entry (fallback_matrix d coords) i j = entry (fallback_matrix d coords) j i := by
  by_cases hi : i < coords.length
  · by_cases hj : j < coords.length
    · rw [entry_fallback_matrix d coords i j hi hj,
        entry_fallback_matrix d coords j i hj hi, hd]
      by_cases h : i = j
      · simp [h]
      · rw [if_neg h, if_neg (fun hh => h (Eq.symm hh))]
    · rw [entry_out_of_range _ i j
          (Or.inr (by rw [row_fallback_matrix d coords i hi]; simpa using Nat.le_of_not_lt hj)),
        entry_out_of_range _ j i
          (Or.inl (by rw [length_fallback_matrix]; exact Nat.le_of_not_lt hj))]
  · by_cases hj : j < coords.length
    · rw [entry_out_of_range _ i j
          (Or.inl (by rw [length_fallback_matrix]; exact Nat.le_of_not_lt hi)),
        entry_out_of_range _ j i
          (Or.inr (by rw [row_fallback_matrix d coords j hj]; simpa using Nat.le_of_not_lt hi))]
    · rw [entry_out_of_range _ i j
          (Or.inl (by rw [length_fallback_matrix]; exact Nat.le_of_not_lt hi)),
        entry_out_of_range _ j i
          (Or.inl (by rw [length_fallback_matrix]; exact Nat.le_of_not_lt hj))]

/-! Edge sums: the `zip(route[:-1], route[1:])` traversal -/

lemma edges_cons_cons (a b : Nat) (t : List Nat) :
    ((a :: b :: t).dropLast).zip (a :: b :: t).tail
      = (a, b) :: ((b :: t).dropLast).zip (b :: t).tail := rfl

theorem edge_map_sum (f : Nat × Nat → ℚ) :
    ∀ r : List Nat,
      ((r.dropLast.zip r.tail).map f).sum
        = ((List.range (r.length - 1)).map fun k => f (r.getD k 0, r.getD (k + 1) 0)).sum
  | [] => by simp
  | [a] => by simp
  | a :: b :: t => by
    rw [edges_cons_cons, List.map_cons, List.sum_cons, edge_map_sum f (b :: t)]
    have hlen : (a :: b :: t).length - 1 = ((b :: t).length - 1) + 1 := by simp
    rw [hlen, List.range_succ_eq_map, List.map_cons, List.sum_cons, List.map_map]
    congr 1

lemma costStep_error (dist : List (List ℚ)) (eff price : ℚ) (e : AggErr)
    (ab : Nat × Nat) : costStep dist eff price (.error e) ab = .error e := rfl

lemma cost_foldl_error (dist : List (List ℚ)) (eff price : ℚ) (e : AggErr) :
    ∀ l : List (Nat × Nat),
      l.foldl (costStep dist eff price) (.error e) = .error e
  | [] => rfl
  | ab :: l => by
    rw [List.foldl_cons, costStep_error, cost_foldl_error dist eff price e l]

lemma costStep_ok (dist : List (List ℚ)) (eff price : ℚ) (heff : eff ≠ 0)
    (s : ℚ) (ab : Nat × Nat) :
    costStep dist eff price (.ok s) ab
      = .ok (s + entry dist ab.1 ab.2 / eff * price) := by
  simp only [costStep, costTerm, if_neg heff]
  rfl

lemma cost_foldl_ok (dist : List (List ℚ)) (eff price : ℚ) (heff : eff ≠ 0) :
    ∀ (l : List (Nat × Nat)) (s : ℚ),
      l.foldl (costStep dist eff price) (.ok s)
        = .ok (s + (l.map fun ab => entry dist ab.1 ab.2 / eff * price).sum)
  | [], s => by simp
  | ab :: l, s => by
    rw [List.foldl_cons, costStep_ok dist eff price heff,
      cost_foldl_ok dist eff price heff l _, List.map_cons, List.sum_cons, add_assoc]

lemma total_cost_exc_ok (dist : List (List ℚ)) (r : List Nat)
    (eff price : ℚ) (heff : eff ≠ 0) :
    total_cost_exc dist r eff price
      = .ok (((r.dropLast.zip r.tail).map
          fun ab => entry dist ab.1 ab.2 / eff * price).sum) := by
  rw [total_cost_exc, cost_foldl_ok dist eff price heff, zero_add]

lemma total_cost_exc_zero (dist : List (List ℚ)) (a b : Nat) (t : List Nat)
    (price : ℚ) :
    total_cost_exc dist (a :: b :: t) 0 price = .error .divisionInvalid := by
  rw [total_cost_exc, edges_cons_cons, List.foldl_cons]
  have h1 : costStep dist 0 price (.ok 0) (a, b) = .error .divisionInvalid := by
    simp only [costStep, costTerm, if_pos rfl]
    rfl
  rw [h1, cost_foldl_error]

/-! Claim theorems: cost aggregation, geocoding, matrix build -/

/-- Claim C2: for every matrix, tour, fuel price and positive fuel
efficiency, the cost aggregation returns `totalDistanceKm` equal to the sum
of `matrix[tour[k]][tour[k+1]]` over `k in 0..len(tour)-2` and `totalCost`
equal to the sum of `(matrix[tour[k]][tour[k+1]] / fuelEfficiency) *
fuelPrice` over the same edges. -/
theorem aggregate_sum_formula (dist : List (List ℚ)) (r : List Nat)
    (price eff : ℚ) (h : 0 < eff) :
    aggregate dist r price eff =
      .ok ⟨((List.range (r.length - 1)).map fun k =>
              entry dist (r.getD k 0) (r.getD (k + 1) 0)).sum,
           ((List.range (r.length - 1)).map fun k =>
              entry dist (r.getD k 0) (r.getD (k + 1) 0) / eff * price).sum⟩ := by
  have heff : eff ≠ 0 := ne_of_gt h
  have hc := total_cost_exc_ok dist r eff price heff
  simp only [aggregate, hc, total_km]
  rw [edge_map_sum (fun ab => entry dist ab.1 ab.2) r,
    edge_map_sum (fun ab => entry dist ab.1 ab.2 / eff * price) r]

/-- Witness for C2 at a concrete 2-point matrix and tour `[0, 1, 0]`. -/
theorem aggregate_sum_formula_witness :
    aggregate [[0, 1], [1, 0]] [0, 1, 0] 130 15 =
      .ok ⟨((List.range 2).map fun k =>
              entry [[0, 1], [1, 0]] ([0, 1, 0].getD k 0) ([0, 1, 0].getD (k + 1) 0)).sum,
           ((List.range 2).map fun k =>
              entry [[0, 1], [1, 0]] ([0, 1, 0].getD k 0) ([0, 1, 0].getD (k + 1) 0)
                / 15 * 130).sum⟩ :=
  aggregate_sum_formula [[0, 1], [1, 0]] [0, 1, 0] 130 15 (by norm_num)

/-- Claim C6: cost aggregation at `fuelEfficiency = 0` (on any tour with at
least one edge, as every constructed tour has) fails with the division
error and produces no `RouteSummary`. -/
theorem aggregate_fuel_eff_zero (dist : List (List ℚ)) (r : List Nat)
    (price : ℚ) (h : 2 ≤ r.length) :
    aggregate dist r price 0 = .error .divisionInvalid := by
  obtain ⟨a, b, t, rfl⟩ : ∃ a b t, r = a :: b :: t := by
    cases r with
    | nil => simp at h
    | cons a r' =>
      cases r' with
      | nil => simp at h
      | cons b t => exact ⟨a, b, t, rfl⟩
  simp only [aggregate, total_cost_exc_zero]

/-- Witness for C6 at the tour `[0, 1, 0]`. -/
theorem aggregate_fuel_eff_zero_witness :
    aggregate [[0, 1], [1, 0]] [0, 1, 0] 130 0 = .error .divisionInvalid :=
  aggregate_fuel_eff_zero [[0, 1], [1, 0]] [0, 1, 0] 130 (by decide)

/-- Claim C8: geocoding returns one coordinate per input name, in order: a
found feature with raw `[lon, lat]` yields `(lat, lon)` at that position,
and a not-found or failed lookup yields the sentinel `(0, 0)` there, the
remaining names being unaffected (the result is defined at every position
regardless of failures elsewhere). -/
theorem geocode_locations_contract (geo : String → GeoResult)
    (names : List String) :
    (geocode_locations geo names).length = names.length ∧
    ∀ k, k < names.length →
      (∀ lon lat, geo (names.getD k "") = .found lon lat →
        (geocode_locations geo names).getD k (0, 0) = (lat, lon)) ∧
      ((geo (names.getD k "") = .notFound ∨ geo (names.getD k "") = .failed) →
        (geocode_locations geo names).getD k (0, 0) = (0, 0)) := by
  refine ⟨by simp [geocode_locations], ?_⟩
  intro k hk
  have hg : (geocode_locations geo names).getD k (0, 0)
      = (match geo (names.getD k "") with
         | .found lon lat => (lat, lon)
         | .notFound => ((0 : ℚ), (0 : ℚ))
         | .failed => ((0 : ℚ), (0 : ℚ))) := by
    simp only [geocode_locations]
    rw [List.getD_eq_getElem _ _ (by simpa using hk), List.getElem_map,
      ← List.getD_eq_getElem names "" hk]
  constructor
  · intro lon lat hf
    rw [hg, hf]
  · intro hnf
    rcases hnf with hnf | hnf <;> rw [hg, hnf]

/-- A concrete geocoder for the C8 witness: finds `"a"`, misses the
rest. -/
def geoW : String → GeoResult := fun s =>
  if s = "a" then .found 1 2 else .notFound

/-- Witness for C8: with names `["a", "b"]`, position 0 gets the swapped
coordinates and position 1 the sentinel. -/
theorem geocode_locations_contract_witness :
    (geocode_locations geoW ["a", "b"]).getD 0 (0, 0) = (2, 1) ∧
    (geocode_locations geoW ["a", "b"]).getD 1 (0, 0) = (0, 0) :=
  ⟨((geocode_locations_contract geoW ["a", "b"]).2 0 (by decide)).1 1 2 rfl,
   ((geocode_locations_contract geoW ["a", "b"]).2 1 (by decide)).2 (Or.inl rfl)⟩

/-- Claim C9: with `trafficLevel = 0` — so every per-edge uniform draw,
constrained to `[0, trafficLevel]`, is zero — the built distance matrix is
the same for any two draw sequences (determinism), and it is symmetric,
the external geodesic distance being symmetric. -/
theorem build_dist_deterministic_symmetric (d : Coord → Coord → ℚ)
    (u1 u2 : Nat → Nat → ℚ) (coords : List Coord)
    (hd : ∀ a b, d a b = d b a)
    (h1 : ∀ i j, 0 ≤ u1 i j ∧ u1 i j ≤ 0)
    (h2 : ∀ i j, 0 ≤ u2 i j ∧ u2 i j ≤ 0) :
    build_dist d u1 coords = build_dist d u2 coords ∧
    ∀ i j, entry (build_dist d u1 coords) i j
      = entry (build_dist d u1 coords) j i := by
  have hz1 : ∀ i j, u1 i j = 0 := fun i j => le_antisymm (h1 i j).2 (h1 i j).1
  have hz2 : ∀ i j, u2 i j = 0 := fun i j => le_antisymm (h2 i j).2 (h2 i j).1
  have e1 : build_dist d u1 coords = fallback_matrix d coords := by
    simp only [build_dist]
    exact inflate_zero u1 _ hz1
  have e2 : build_dist d u2 coords = fallback_matrix d coords := by
    simp only [build_dist]
    exact inflate_zero u2 _ hz2
  refine ⟨e1.trans e2.symm, ?_⟩
  intro i j
  rw [e1]
  exact entry_fallback_symm d coords hd i j

/-- A concrete symmetric distance for the C9 witness. -/
def dSym : Coord → Coord → ℚ := fun a b =>
  (a.1 - b.1) ^ 2 + (a.2 - b.2) ^ 2

/-- Witness for C9 at two concrete points and the all-zero draw. -/
theorem build_dist_deterministic_symmetric_witness :
    entry (build_dist dSym (fun _ _ => 0) [(0, 0), (0, 1)]) 0 1
      = entry (build_dist dSym (fun _ _ => 0) [(0, 0), (0, 1)]) 1 0 :=
  (build_dist_deterministic_symmetric dSym (fun _ _ => 0) (fun _ _ => 0)
    [(0, 0), (0, 1)] (fun a b => by simp [dSym]; ring)
    (fun _ _ => ⟨le_refl 0, le_refl 0⟩)
    (fun _ _ => ⟨le_refl 0, le_refl 0⟩)).2 0 1

/-! Python `min(..., key=...)`: first minimal element wins -/

theorem foldl_min_spec (key : Nat → ℚ) :
    ∀ (xs : List Nat) (acc : Nat), (∀ x ∈ xs, acc ≤ x) → xs.Pairwise (· ≤ ·) →
      (xs.foldl (fun b x => if key x < key b then x else b) acc ∈ acc :: xs) ∧
      (∀ y ∈ acc :: xs,
        key (xs.foldl (fun b x => if key x < key b then x else b) acc) ≤ key y) ∧
      (∀ y ∈ acc :: xs,
        key y = key (xs.foldl (fun b x => if key x < key b then x else b) acc) →
        xs.foldl (fun b x => if key x < key b then x else b) acc ≤ y)
  | [], acc => fun _ _ => by
    refine ⟨by simp, ?_, ?_⟩
    · intro y hy
      rw [List.mem_singleton.mp hy]
      exact le_refl (key acc)
    · intro y hy _
      rw [List.mem_singleton.mp hy]
      exact Nat.le_refl acc
  | x :: xs, acc => fun h hp => by
    rw [List.foldl_cons]
    have hax : acc ≤ x := h x (List.mem_cons_self x xs)
    have hxs : ∀ y ∈ xs, x ≤ y := (List.pairwise_cons.mp hp).1
    have hp' : xs.Pairwise (· ≤ ·) := (List.pairwise_cons.mp hp).2
    by_cases hxa : key x < key acc
    · rw [if_pos hxa]
      obtain ⟨IH1, IH2, IH3⟩ := foldl_min_spec key xs x hxs hp'
      refine ⟨List.mem_cons_of_mem acc IH1, ?_, ?_⟩
      · intro y hy
        rcases List.mem_cons.mp hy with h1 | h1
        · exact h1 ▸ le_of_lt (lt_of_le_of_lt (IH2 x (List.mem_cons_self x xs)) hxa)
        · exact IH2 y h1
      · intro y hy hkey
        rcases List.mem_cons.mp hy with h1 | h1
        · exfalso
          have hlt := lt_of_le_of_lt (IH2 x (List.mem_cons_self x xs)) hxa
          rw [h1] at hkey
          exact absurd hkey (ne_of_gt hlt)
        · exact IH3 y h1 hkey
    · rw [if_neg hxa]
      have hax' : key acc ≤ key x := le_of_not_lt hxa
      have h2 : ∀ y ∈ xs, acc ≤ y := fun y hy => h y (List.mem_cons_of_mem x hy)
      obtain ⟨IH1, IH2, IH3⟩ := foldl_min_spec key xs acc h2 hp'
      refine ⟨?_, ?_, ?_⟩
      · rcases List.mem_cons.mp IH1 with h1 | h1
        · rw [h1]
          exact List.mem_cons_self acc (x :: xs)
        · exact List.mem_cons_of_mem acc (List.mem_cons_of_mem x h1)
      · intro y hy
        rcases List.mem_cons.mp hy with h1 | h1
        · exact h1 ▸ IH2 acc (List.mem_cons_self acc xs)
        · rcases List.mem_cons.mp h1 with h2' | h2'
          · exact h2' ▸ le_trans (IH2 acc (List.mem_cons_self acc xs)) hax'
          · exact IH2 y (List.mem_cons_of_mem acc h2')
      · intro y hy hkey
        rcases List.mem_cons.mp hy with h1 | h1
        · exact IH3 y (h1 ▸ List.mem_cons_self acc xs) hkey
        · rcases List.mem_cons.mp h1 with h2' | h2'
          · subst h2'
            have hracc : key (xs.foldl (fun b x => if key x < key b then x else b) acc)
                ≤ key acc := IH2 acc (List.mem_cons_self acc xs)
            have hacc : key acc
                = key (xs.foldl (fun b x => if key x < key b then x else b) acc) :=
              le_antisymm (hkey ▸ hax') hracc
            exact le_trans (IH3 acc (List.mem_cons_self acc xs) hacc) hax
          · exact IH3 y (List.mem_cons_of_mem acc h2') hkey

theorem pyMin_spec (key : Nat → ℚ) (l : List Nat) (hp : l.Pairwise (· ≤ ·))
    (m : Nat) (hm : pyMin key l = some m) :
    m ∈ l ∧ (∀ y ∈ l, key m ≤ key y) ∧ (∀ y ∈ l, key y = key m → m ≤ y) := by
  cases l with
  | nil => cases hm
  | cons j js =>
    have hj : ∀ y ∈ js, j ≤ y := (List.pairwise_cons.mp hp).1
    have hjs : js.Pairwise (· ≤ ·) := (List.pairwise_cons.mp hp).2
    have hm' : js.foldl (fun b x => if key x < key b then x else b) j = m :=
      Option.some_injective _ hm
    obtain ⟨s1, s2, s3⟩ := foldl_min_spec key js j hj hjs
    rw [hm'] at s1 s2 s3
    exact ⟨s1, s2, s3⟩

lemma pyMin_isSome (key : Nat → ℚ) (l : List Nat) (h : l ≠ []) :
    ∃ m, pyMin key l = some m := by
  cases l with
  | nil => exact absurd rfl h
  | cons j js => exact ⟨_, rfl⟩

/-! The selection step `next_city` -/

lemma cands_mem (n : Nat) (r : List Nat) (j : Nat) :
    j ∈ (List.range n).filter (fun j => decide (j ∉ r)) ↔ j < n ∧ j ∉ r := by
  simp [List.mem_filter, List.mem_range]

lemma cands_pairwise (n : Nat) (r : List Nat) :
    ((List.range n).filter (fun j => decide (j ∉ r))).Pairwise (· ≤ ·) := by
  have h1 : (List.range n).Pairwise (· ≤ ·) :=
    (List.pairwise_lt_range n).imp le_of_lt
  exact h1.sublist (List.filter_sublist (List.range n))

theorem next_city_spec (dist : List (List ℚ)) (n : Nat) (r : List Nat)
    (c : Nat) (h : next_city dist n r = some c) :
    (c < n ∧ c ∉ r) ∧
    (∀ j, j < n → j ∉ r →
      entry dist (r.getLastD 0) c ≤ entry dist (r.getLastD 0) j) ∧
    (∀ j, j < n → j ∉ r →
      entry dist (r.getLastD 0) j = entry dist (r.getLastD 0) c → c ≤ j) := by
  obtain ⟨s1, s2, s3⟩ := pyMin_spec _ _ (cands_pairwise n r) c h
  refine ⟨(cands_mem n r c).mp s1, ?_, ?_⟩
  · intro j hj hjr
    exact s2 j ((cands_mem n r j).mpr ⟨hj, hjr⟩)
  · intro j hj hjr hkey
    exact s3 j ((cands_mem n r j).mpr ⟨hj, hjr⟩) hkey

lemma next_city_some (dist : List (List ℚ)) (n : Nat) (r : List Nat)
    (hex : ∃ j, j < n ∧ j ∉ r) : ∃ c, next_city dist n r = some c := by
  obtain ⟨j, hj⟩ := hex
  apply pyMin_isSome
  intro hnil
  have := (cands_mem n r j).mpr hj
  rw [hnil] at this
  cases this

/-! The nearest-neighbor loop invariant -/

/-- Invariant of the route list during the `while` loop: nonempty, no
duplicates, all indices in range, and it starts at the start index 0. -/
structure LoopInv (n : Nat) (r : List Nat) : Prop where
  ne : r ≠ []
  nodup : r.Nodup
  bound : ∀ i ∈ r, i < n
  headZero : r.head? = some 0

lemma exists_unvisited (n : Nat) (r : List Nat) (hlen : r.length < n) :
    ∃ j, j < n ∧ j ∉ r := by
  by_contra hno
  push_neg at hno
  have hsub : List.range n ⊆ r := fun j hj => hno j (List.mem_range.mp hj)
  have hsp := List.subperm_of_subset (List.nodup_range n) hsub
  have hle := hsp.length_le
  rw [List.length_range] at hle
  omega

theorem nnLoop_spec (dist : List (List ℚ)) (n : Nat) :
    ∀ (fuel : Nat) (r : List Nat), LoopInv n r → r.length ≤ n →
      n ≤ fuel + r.length →
      LoopInv n (nnLoop dist n fuel r) ∧ (nnLoop dist n fuel r).length = n
  | 0, r => fun inv hle hfuel => by
    have hlen : r.length = n := le_antisymm hle (by simpa using hfuel)
    exact ⟨inv, hlen⟩
  | fuel + 1, r => fun inv hle hfuel => by
    by_cases hlt : r.length < n
    · obtain ⟨c, hc⟩ := next_city_some dist n r (exists_unvisited n r hlt)
      have hcspec := next_city_spec dist n r c hc
      have hrw : nnLoop dist n (fuel + 1) r = nnLoop dist n fuel (r ++ [c]) := by
        rw [nnLoop, if_pos hlt, hc]
      have inv' : LoopInv n (r ++ [c]) := {
        ne := by simp
        nodup := by
          rw [List.nodup_append]
          refine ⟨inv.nodup, List.nodup_singleton c, ?_⟩
          intro a ha hac
          rw [List.mem_singleton.mp hac] at ha
          exact hcspec.1.2 ha
        bound := by
          intro i hi
          rcases List.mem_append.mp hi with hm | hm
          · exact inv.bound i hm
          · rw [List.mem_singleton.mp hm]
            exact hcspec.1.1
        headZero := by
          rw [List.head?_append_of_ne_nil _ inv.ne]
          exact inv.headZero
      }
      rw [hrw]
      exact nnLoop_spec dist n fuel (r ++ [c]) inv'
        (by simp only [List.length_append, List.length_singleton]; omega)
        (by simp only [List.length_append, List.length_singleton]; omega)
    · have hlen : r.length = n := le_antisymm hle (le_of_not_lt hlt)
      have hrw : nnLoop dist n (fuel + 1) r = r := by rw [nnLoop, if_neg hlt]
      rw [hrw]
      exact ⟨inv, hlen⟩

lemma route_eq (dist : List (List ℚ)) :
    route dist = nnLoop dist dist.length dist.length [0] ++ [0] := rfl

lemma loopInv_init (n : Nat) (h : 1 ≤ n) : LoopInv n [0] := {
  ne := by simp
  nodup := List.nodup_singleton 0
  bound := by
    intro i hi
    rw [List.mem_singleton.mp hi]
    omega
  headZero := rfl
}

lemma route_core (dist : List (List ℚ)) (h : 1 ≤ dist.length) :
    LoopInv dist.length (nnLoop dist dist.length dist.length [0]) ∧
    (nnLoop dist dist.length dist.length [0]).length = dist.length :=
  nnLoop_spec dist dist.length dist.length [0] (loopInv_init _ h)
    (by simpa using h) (by simp)

/-- Claim C1: for every distance matrix with `n ≥ 1` rows, the constructed
tour has length `n + 1`, starts and ends at `0`, and — dropping the final
closing `0` — is a permutation of `{0, ..., n-1}`: every index appears
exactly once before the tour returns to the start. -/
theorem route_tour_spec (dist : List (List ℚ)) (h : 1 ≤ dist.length) :
    (route dist).length = dist.length + 1 ∧
    (route dist).head? = some 0 ∧
    (route dist).getLast? = some 0 ∧
    (route dist).dropLast.Perm (List.range dist.length) := by
  obtain ⟨inv, hlen⟩ := route_core dist h
  rw [route_eq]
  refine ⟨by simp [hlen], ?_, ?_, ?_⟩
  · rw [List.head?_append_of_ne_nil _ inv.ne]
    exact inv.headZero
  · exact List.getLast?_concat _
  · rw [List.dropLast_concat]
    have hsub : nnLoop dist dist.length dist.length [0] ⊆ List.range dist.length :=
      fun i hi => List.mem_range.mpr (inv.bound i hi)
    exact (List.subperm_of_subset inv.nodup hsub).perm_of_length_le (by simp [hlen])

/-- Witness for C1 on a concrete 2-point matrix. -/
theorem route_tour_spec_witness :
    (route [[0, 1], [1, 0]]).length = 3 ∧
    (route [[0, 1], [1, 0]]).head? = some 0 ∧
    (route [[0, 1], [1, 0]]).getLast? = some 0 ∧
    (route [[0, 1], [1, 0]]).dropLast.Perm (List.range 2) :=
  route_tour_spec [[0, 1], [1, 0]] (by decide)

/-- Claim C3: whenever the loop selects the next city, the selected index
is unvisited, attains the minimal distance from the last appended index,
and is the smallest index among all unvisited indices attaining that
minimum; in particular, from the start `[0]`, when `matrix[0][1]` and
`matrix[0][2]` are both minimal, index 1 is chosen before index 2. -/
theorem next_city_tie_break (dist : List (List ℚ)) :
    (∀ n r c, next_city dist n r = some c →
      (c < n ∧ c ∉ r) ∧
      (∀ j, j < n → j ∉ r →
        entry dist (r.getLastD 0) c ≤ entry dist (r.getLastD 0) j) ∧
      (∀ j, j < n → j ∉ r →
        entry dist (r.getLastD 0) j = entry dist (r.getLastD 0) c → c ≤ j)) ∧
    (∀ n, 3 ≤ n →
      (∀ j, j < n → 1 ≤ j → entry dist 0 1 ≤ entry dist 0 j) →
      entry dist 0 1 = entry dist 0 2 →
      next_city dist n [0] = some 1) := by
  refine ⟨fun n r c hc => next_city_spec dist n r c hc, ?_⟩
  intro n hn hmin _
  obtain ⟨c, hc⟩ := next_city_some dist n [0] ⟨1, by omega, by decide⟩
  obtain ⟨⟨hcn, hcr⟩, hopt, htie⟩ := next_city_spec dist n [0] c hc
  have hc0 : c ≠ 0 := fun hc0 => hcr (List.mem_singleton.mpr hc0)
  have hc1 : 1 ≤ c := Nat.one_le_iff_ne_zero.mpr hc0
  have hlast : ([0] : List Nat).getLastD 0 = 0 := rfl
  rw [hlast] at hopt htie
  have hle : entry dist 0 c ≤ entry dist 0 1 := hopt 1 (by omega) (by decide)
  have hge : entry dist 0 1 ≤ entry dist 0 c := hmin c hcn hc1
  have heq : entry dist 0 1 = entry dist 0 c := le_antisymm hge hle
  have := htie 1 (by omega) (by decide) heq
  rw [hc]
  exact congrArg some (le_antisymm this hc1)

/-- Witness for C3: a 3-point matrix with a tie `matrix[0][1] =
matrix[0][2] = 5`; the step from `[0]` picks index 1. -/
theorem next_city_tie_break_witness :
    next_city [[0, 5, 5], [5, 0, 1], [5, 1, 0]] 3 [0] = some 1 :=
  (next_city_tie_break [[0, 5, 5], [5, 0, 1], [5, 1, 0]]).2 3 (by decide)
    (by decide) (by decide)

/-- Counterexample for C7 as stated: on a zero-length matrix the tour
construction does not fail — there is no InvalidInput error anywhere in
the code — and it returns the list `[0, 0]`. -/
theorem route_n_zero_counterexample : route ([] : List (List ℚ)) = [0, 0] := rfl

/-- Amended C7: on a zero-length coordinate set the tour constructor does
not fail with an error; the loop body never runs and the code returns the
degenerate tour `[0, 0]`, whose entries are not valid indices. -/
theorem route_n_zero (dist : List (List ℚ)) (h : dist.length = 0) :
    route dist = [0, 0] := by
  rw [List.length_eq_zero.mp h]
  rfl

/-- Witness for the amended C7 at the empty matrix. -/
theorem route_n_zero_witness :
    ([] : List (List ℚ)).length = 0 ∧ route ([] : List (List ℚ)) = [0, 0] :=
  ⟨rfl, route_n_zero [] rfl⟩

/-! Pipeline-level lemmas -/

lemma length_geocode_locations (geo : String → GeoResult)
    (names : List String) :
    (geocode_locations geo names).length = names.length := by
  simp [geocode_locations]

lemma fallbackPair_length : fallbackPair.length = 2 := rfl

lemma resolve_points_length (geo : String → GeoResult) (names : List String)
    (h : 2 ≤ names.length) :
    2 ≤ (resolve_points geo names).length ∧
    (resolve_points geo names).length ≤ names.length := by
  simp only [resolve_points]
  split
  · exact ⟨le_refl 2, h⟩
  · rw [length_geocode_locations]
    exact ⟨h, le_refl _⟩

lemma resolve_points_not_sentinel (geo : String → GeoResult)
    (names : List String)
    (h : ¬ allSentinel (geocode_locations geo names) = true) :
    resolve_points geo names = geocode_locations geo names := by
  simp only [resolve_points]
  rw [if_neg]
  rintro (hnil | hall)
  · rw [hnil] at h
    exact h rfl
  · exact h hall

lemma resolve_points_sentinel (geo : String → GeoResult)
    (names : List String)
    (h : allSentinel (geocode_locations geo names) = true) :
    resolve_points geo names = fallbackPair := by
  simp only [resolve_points]
  rw [if_pos (Or.inr h)]

lemma build_dist_length (d : Coord → Coord → ℚ) (u : Nat → Nat → ℚ)
    (pts : List Coord) : (build_dist d u pts).length = pts.length := by
  simp [build_dist, inflate, fallback_matrix]

lemma build_dist_row_length (d : Coord → Coord → ℚ) (u : Nat → Nat → ℚ)
    (pts : List Coord) :
    ∀ row ∈ build_dist d u pts, row.length = pts.length := by
  intro row hrow
  obtain ⟨i, hi, hrw⟩ := List.mem_iff_getElem.mp hrow
  subst hrw
  simp [build_dist, inflate, fallback_matrix, List.getElem_mapIdx]

lemma runPipeline_ok_inversion (geo : String → GeoResult)
    (d : Coord → Coord → ℚ) (u : Nat → Nat → ℚ) (key : String)
    (lines : List String) (price eff traffic : ℚ) (out : Output)
    (h : runPipeline geo d u key lines price eff traffic = .ok out) :
    out.loc_names = clean_names lines ∧
    2 ≤ (clean_names lines).length ∧
    out.points = resolve_points geo (clean_names lines) ∧
    out.dist = build_dist d u out.points ∧
    out.tour = route out.dist := by
  by_cases hk : pyStrip key = ""
  · rw [runPipeline, if_pos hk] at h
    exact Except.noConfusion h
  · by_cases hn : (clean_names lines).length < 2
    · simp only [runPipeline, if_neg hk, if_pos hn] at h
      exact Except.noConfusion h
    · simp only [runPipeline, if_neg hk, if_neg hn] at h
      split at h
      · exact Except.noConfusion h
      · injection h with h2
        subst h2
        exact ⟨rfl, by omega, rfl, rfl, rfl⟩

lemma route_shape (dist : List (List ℚ)) (h : 1 ≤ dist.length) :
    ∃ b t, route dist = 0 :: b :: t := by
  obtain ⟨inv, hlen⟩ := route_core dist h
  rw [route_eq]
  cases hL : nnLoop dist dist.length dist.length [0] with
  | nil => exact absurd hL inv.ne
  | cons a L' =>
    have hh := inv.headZero
    rw [hL, List.head?_cons] at hh
    have ha : a = 0 := Option.some_injective _ hh
    subst ha
    cases L' with
    | nil => exact ⟨0, [], rfl⟩
    | cons b t => exact ⟨b, t ++ [0], by simp⟩

/-! Claim theorems: pipeline invariants and error handling -/

/-- Amended C4: when at least one geocoded point differs from the sentinel,
the matrix handed to the tour constructor is n x n with n the number of
(cleaned) input names; but when every geocoded point is the sentinel, the
point set is replaced by the 2-element fallback pair, so the matrix is
2 x 2 regardless of how many names were given.  In both cases the matrix
is square with one row and one column per point. -/
theorem dist_matrix_dims (geo : String → GeoResult) (d : Coord → Coord → ℚ)
    (u : Nat → Nat → ℚ) (key : String) (lines : List String)
    (price eff traffic : ℚ) (out : Output)
    (h : runPipeline geo d u key lines price eff traffic = .ok out) :
    (out.dist.length = out.points.length ∧
      ∀ row ∈ out.dist, row.length = out.points.length) ∧
    (¬ allSentinel (geocode_locations geo out.loc_names) = true →
      out.points.length = out.loc_names.length) ∧
    (allSentinel (geocode_locations geo out.loc_names) = true →
      out.points.length = 2) := by
  obtain ⟨hnames, hn2, hpts, hdist, _⟩ :=
    runPipeline_ok_inversion geo d u key lines price eff traffic out h
  rw [hnames]
  refine ⟨?_, ?_, ?_⟩
  · rw [hdist]
    exact ⟨build_dist_length d u out.points, build_dist_row_length d u out.points⟩
  · intro hna
    rw [hpts, resolve_points_not_sentinel geo _ hna, length_geocode_locations]
  · intro ha
    rw [hpts, resolve_points_sentinel geo _ ha, fallbackPair_length]

/-- Counterexample for C4 as stated: three input names, none of which
resolves, yield a 2 x 2 matrix (the fallback pair), not a 3 x 3 one. -/
theorem dist_matrix_dims_counterexample :
    (runPipeline (fun _ => GeoResult.notFound) (fun _ _ => 1) (fun _ _ => 0)
        "k" ["a", "b", "c"] 130 15 0).toOption.map
      (fun o => (o.loc_names.length, o.dist.length)) = some (3, 2) := rfl

/-- The output of the concrete all-unresolved run used as C4 witness. -/
def outSentinel : Output :=
  ((runPipeline (fun _ => GeoResult.notFound) (fun _ _ => 1) (fun _ _ => 0)
      "k" ["a", "b", "c"] 130 15 0).toOption).getD ⟨[], [], [], [], 0, 0⟩

/-- Witness for the amended C4 on the all-unresolved run. -/
theorem dist_matrix_dims_witness : outSentinel.points.length = 2 :=
  (dist_matrix_dims (fun _ => GeoResult.notFound) (fun _ _ => 1)
    (fun _ _ => 0) "k" ["a", "b", "c"] 130 15 0 outSentinel rfl).2.2 rfl

/-- Amended C5: a missing/empty credential or fewer than 2 cleaned
location names fails fast, before geocoding can matter (the same error is
returned for every geocoder); but a non-positive fuel efficiency is NOT
validated up front: `fuelEfficiency = 0` only surfaces as a division error
at cost aggregation, after geocoding, matrix and tour construction, and a
negative fuel efficiency produces a normal result with no error at all. -/
theorem config_checks (geo : String → GeoResult) (d : Coord → Coord → ℚ)
    (u : Nat → Nat → ℚ) (key : String) (lines : List String)
    (price eff traffic : ℚ) :
    (pyStrip key = "" →
      runPipeline geo d u key lines price eff traffic = .error .emptyKey) ∧
    (pyStrip key ≠ "" → (clean_names lines).length < 2 →
      runPipeline geo d u key lines price eff traffic
        = .error .tooFewLocations) ∧
    (pyStrip key ≠ "" → 2 ≤ (clean_names lines).length → eff = 0 →
      runPipeline geo d u key lines price eff traffic
        = .error .divisionInvalid) := by
  refine ⟨?_, ?_, ?_⟩
  · intro hk
    rw [runPipeline, if_pos hk]
  · intro hk hn
    simp only [runPipeline, if_neg hk, if_pos hn]
  · intro hk hn heff
    subst heff
    simp only [runPipeline, if_neg hk, if_neg (not_lt.mpr hn)]
    have h2 : 2 ≤ (resolve_points geo (clean_names lines)).length :=
      (resolve_points_length geo _ hn).1
    have hM : 1 ≤ (build_dist d u (resolve_points geo (clean_names lines))).length := by
      rw [build_dist_length]
      omega
    obtain ⟨b, t, hshape⟩ := route_shape _ hM
    rw [hshape, total_cost_exc_zero]

/-- Counterexample for C5 as stated: a run with the non-positive fuel
efficiency -1 is not rejected as a configuration error; it completes and
returns a result. -/
theorem config_checks_counterexample :
    (runPipeline (fun _ => GeoResult.found 1 2) (fun _ _ => 1)
      (fun _ _ => 0) "k" ["a", "b"] 130 (-1) 0).isOk = true := rfl

/-- Witness for the amended C5: the three error paths at concrete
configurations. -/
theorem config_checks_witness :
    runPipeline (fun _ => GeoResult.notFound) (fun _ _ => 1) (fun _ _ => 0)
      "" ["a", "b"] 130 15 0 = .error .emptyKey ∧
    runPipeline (fun _ => GeoResult.notFound) (fun _ _ => 1) (fun _ _ => 0)
      "k" ["a"] 130 15 0 = .error .tooFewLocations ∧
    runPipeline (fun _ => GeoResult.notFound) (fun _ _ => 1) (fun _ _ => 0)
      "k" ["a", "b"] 130 0 0 = .error .divisionInvalid :=
  ⟨(config_checks (fun _ => GeoResult.notFound) (fun _ _ => 1)
      (fun _ _ => 0) "" ["a", "b"] 130 15 0).1 rfl,
   (config_checks (fun _ => GeoResult.notFound) (fun _ _ => 1)
      (fun _ _ => 0) "k" ["a"] 130 15 0).2.1 (by decide) (by decide),
   (config_checks (fun _ => GeoResult.notFound) (fun _ _ => 1)
      (fun _ _ => 0) "k" ["a", "b"] 130 0 0).2.2 (by decide) (by decide) rfl⟩

/-- Claim C10: in every successful pipeline run, every index of the
constructed tour is a valid index into both the point list and the cleaned
name list, so the final name lookup `loc_names[i] for i in route` cannot
go out of bounds. -/
theorem route_indices_valid (geo : String → GeoResult)
    (d : Coord → Coord → ℚ) (u : Nat → Nat → ℚ) (key : String)
    (lines : List String) (price eff traffic : ℚ) (out : Output)
    (h : runPipeline geo d u key lines price eff traffic = .ok out) :
    ∀ i ∈ out.tour, i < out.points.length ∧ i < out.loc_names.length := by
  obtain ⟨hnames, hn2, hpts, hdist, htour⟩ :=
    runPipeline_ok_inversion geo d u key lines price eff traffic out h
  have hplen : 2 ≤ out.points.length := by
    rw [hpts]
    exact (resolve_points_length geo _ hn2).1
  have hple : out.points.length ≤ out.loc_names.length := by
    rw [hpts, hnames]
    exact (resolve_points_length geo _ hn2).2
  have hdl : out.dist.length = out.points.length := by
    rw [hdist, build_dist_length]
  have hM : 1 ≤ out.dist.length := by omega
  obtain ⟨inv, _⟩ := route_core out.dist hM
  intro i hi
  rw [htour, route_eq] at hi
  rcases List.mem_append.mp hi with hm | hm
  · have hib := inv.bound i hm
    omega
  · rw [List.mem_singleton.mp hm]
    omega

/-- The output of the concrete successful run used as C10 witness. -/
def outOk : Output :=
  ((runPipeline (fun _ => GeoResult.found 1 2) (fun _ _ => 1) (fun _ _ => 0)
      "k" ["a", "b"] 130 15 0).toOption).getD ⟨[], [], [], [], 0, 0⟩

/-- Witness for C10: tour index 1 of the concrete run is in bounds for
both lists. -/
theorem route_indices_valid_witness :
    1 < outOk.points.length ∧ 1 < outOk.loc_names.length :=
  route_indices_valid (fun _ => GeoResult.found 1 2) (fun _ _ => 1)
    (fun _ _ => 0) "k" ["a", "b"] 130 15 0 outOk rfl 1
    (by rw [show outOk.tour = [0, 1, 0] from rfl]; simp)

end RouteApp
